/-
Verification of the AEraLogin admission-control core against its
natural-language specification.

Shallow embedding of the Python sources:
  * resonance_calculator.py  (should_sync_resonance)
  * blockchain_sync.py       (sync_score_after_update, force_sync_on_login,
                              process_sync_queue retry logic)
  * server.py                (calculate_tiered_points, calculate_new_score)
  * web3_service.py          (update_blockchain_score, the nonce lock)
  * telegram_group_bot.py    (SecureWalletStore, CapabilityTokenManager,
                              SessionManager)

Python ints are modelled as `Int`/`Nat`, Python floats in the tiered score
engine as `ℚ` (all reachable score values are multiples of 1/100, where
binary floats and rationals agree on the quantities the spec names), byte
strings as `List Nat` and text as `List Char`.
-/
import Mathlib

namespace AEraLogin

/-! ## Resonance sync decisions (resonance_calculator.py / blockchain_sync.py) -/

/-- Embedding of `should_sync_resonance` (resonance_calculator.py).
The DB/ledger reads are abstracted into the two arguments:
`total` is the result of `calculate_resonance_score` (the floored total
resonance) and `blockchain` is what `get_blockchain_score` returned.
The source checks `total_resonance % 1 != 0` ("milestone = 1"), then
compares with the blockchain score.  Returns `(should_sync, target)`. -/
def should_sync_resonance (total blockchain : Int) : Bool × Int :=
  if total % 1 ≠ 0 then (false, total)
  else if blockchain = total then (false, total)
  else (true, total)

/-- Embedding of the submission decision of `sync_score_after_update`
(blockchain_sync.py): the computed total resonance is submitted to the
ledger only when it is at a 2-point milestone (`total_resonance % 2 != 0`
causes an early return); `some t` means `update_blockchain_score` is
called with target `t`. -/
def sync_score_after_update (total : Int) : Option Int :=
  if total % 2 ≠ 0 then none else some total

/-- Embedding of the submission decision of `force_sync_on_login`
(blockchain_sync.py): with `diff = total_resonance - blockchain_score`,
no sync when `abs diff < 2`; otherwise `update_blockchain_score` is
called with `(total_resonance // 2) * 2` (Python floor division). -/
def force_sync_on_login (total blockchain : Int) : Option Int :=
  let diff := total - blockchain
  if |diff| < 2 then none
  else some (total.fdiv 2 * 2)

/-! ## Sync-queue retry logic (blockchain_sync.py, process_sync_queue) -/

def MAX_RETRIES : Nat := 3

/-- Fate of a dequeued sync job after one submission attempt. -/
inductive JobFate where
  | committed
  | abandoned
  | requeued (retries : Nat)
  deriving DecidableEq, Repr

/-- One pass of the worker loop body of `process_sync_queue`
(blockchain_sync.py) for a job carrying retry counter `retries`:
on success the job is committed (database updated, job dropped);
on failure it is re-queued with `retries + 1` when `retries < MAX_RETRIES`,
otherwise abandoned ("Max retries reached ... giving up"). -/
def process_step (retries : Nat) (success : Bool) : JobFate :=
  if success then .committed
  else if retries < MAX_RETRIES then .requeued (retries + 1)
  else .abandoned

/-- Run one job through a sequence of submission outcomes (`true` =
ledger submission succeeded), starting from retry counter `r`;
`requeued r` with an exhausted outcome list means the job is still
sitting in the queue with counter `r`. -/
def run_job : Nat → List Bool → JobFate
  | r, [] => .requeued r
  | r, o :: os =>
    match process_step r o with
    | .requeued r' => run_job r' os
    | fate => fate

/-! ## Ledger submission result handling (web3_service.py) -/

/-- What `wait_for_transaction_receipt` produced for a sent transaction:
a receipt with the given EVM status field, or an exception
(timeout / RPC failure). -/
inductive ReceiptOutcome where
  | receipt (status : Nat)
  | exception
  deriving DecidableEq, Repr

/-- Embedding of the tail of `update_blockchain_score` (web3_service.py),
from the point where the transaction has been sent: the returned pair is
`(success_flag, status_string)`.  With a receipt in hand the function
returns `True` and only records `"failed"` in the dict when
`receipt['status'] != 1`; an exception yields `(False, "error")`. -/
def update_blockchain_score_result (r : ReceiptOutcome) : Bool × String :=
  match r with
  | .receipt status => (true, if status = 1 then "success" else "failed")
  | .exception => (false, "error")

/-- Embedding of the database write of the worker in `process_sync_queue`
(blockchain_sync.py): when `update_blockchain_score` reported success the
row's `blockchain_score` is set to the job's score, otherwise it is left
unchanged. -/
def worker_db_blockchain_score (success : Bool) (old score : Int) : Int :=
  if success then score else old

/-! ## Tiered score engine (server.py) -/

def MAX_SCORE : ℚ := 100

/-- Embedding of `calculate_tiered_points` (server.py) for one interaction:
the growth rate determined by the current score band
(`TIERED_SCORE_RATES`: 50 → 1.0, 60 → 0.5, 70 → 0.2, 80 → 0.1, 90 → 0.01;
the final `else` branch also yields the tier-50 rate below 50). -/
def calculate_tiered_points (current_score : ℚ) : ℚ :=
  if current_score ≥ 90 then 1/100
  else if current_score ≥ 80 then 1/10
  else if current_score ≥ 70 then 1/5
  else if current_score ≥ 60 then 1/2
  else 1

/-- The loop body of `calculate_new_score`: one interaction's worth of
points at the *current* score, clamped by `min (· + points) MAX_SCORE`. -/
def apply_one_interaction (s : ℚ) : ℚ :=
  min (s + calculate_tiered_points s) MAX_SCORE

/-- The `for _ in range(interactions)` loop of `calculate_new_score`,
including the early `break` once `MAX_SCORE` is reached. -/
def score_loop : Nat → ℚ → ℚ
  | 0, s => s
  | n + 1, s =>
    let s' := apply_one_interaction s
    if s' ≥ MAX_SCORE then s' else score_loop n s'

/-- Python's `round(x, 2)`.  Reachable score values are integer multiples
of 1/100 (start values are, and every rate is), where rounding is the
identity and all tie-breaking conventions agree; `round` here is
Mathlib's nearest-integer rounding of `100 * x`. -/
def round2 (x : ℚ) : ℚ := (round (x * 100) : ℤ) / 100

/-- Embedding of `calculate_new_score` (server.py). -/
def calculate_new_score (current_score : ℚ) (interactions : Nat) : ℚ :=
  round2 (score_loop interactions current_score)

/-! ## Session manager (telegram_group_bot.py) -/

/-- The fields of `UserSession` that the session-lifecycle claims are
about.  `encrypted_wallet`/`wallet_hash` and the score bookkeeping are
carried opaquely as data. -/
structure UserSession where
  telegram_id : Nat
  last_score : Int
  session_start : Nat
  last_activity : Nat
  last_score_check : Nat
  expires : Nat
  deriving DecidableEq, Repr

/-- `UserSession.is_expired`: `time.time() > self.expires`. -/
def UserSession.is_expired (s : UserSession) (now : Nat) : Bool :=
  now > s.expires

/-- `UserSession.extend_session`: refresh `last_activity` and push
`expires` to `now + timeout_seconds`. -/
def UserSession.extend (s : UserSession) (now timeout : Nat) : UserSession :=
  { s with last_activity := now, expires := now + timeout }

/-- The session store `self.sessions : group_id -> {telegram_id -> session}`,
flattened to an association list keyed by `(group_id, telegram_id)`
(lookup/insert/delete semantics are those of the nested dicts). -/
def SessionStore := List ((Nat × Nat) × UserSession)

instance : DecidableEq SessionStore := by
  unfold SessionStore; infer_instance

instance : Membership ((Nat × Nat) × UserSession) SessionStore := by
  unfold SessionStore; infer_instance

def SessionStore.lookup (st : SessionStore) (g u : Nat) : Option UserSession :=
  (st.find? (fun e => e.1 = (g, u))).map Prod.snd

def SessionStore.remove (st : SessionStore) (g u : Nat) : SessionStore :=
  st.filter (fun e => ¬ e.1 = (g, u))

/-- Embedding of `SessionManager.get_session`: returns the session for
`(group_id, telegram_id)`, or `None`; **and deletes the entry** when the
stored session is expired (`del self.sessions[group_id][telegram_id]`).
Returns the result together with the store after the call. -/
def get_session (st : SessionStore) (g u : Nat) (now : Nat) :
    Option UserSession × SessionStore :=
  match st.lookup g u with
  | none => (none, st)
  | some s =>
    if s.is_expired now then (none, st.remove g u)
    else (some s, st)

/-- Embedding of `SessionManager._cleanup_expired` (sessions half): every
expired session is removed; pending-token cleanup is analogous and not
needed by the claims. -/
def cleanup_expired (st : SessionStore) (now : Nat) : SessionStore :=
  st.filter (fun e => ¬ e.2.is_expired now)

/-- Embedding of `SessionManager.end_session` (explicit leave). -/
def end_session (st : SessionStore) (g u : Nat) : SessionStore :=
  st.remove g u

/-- Embedding of `SessionManager.extend_session`: goes through
`get_session` (hence inherits its deletion of expired entries) and, on a
hit, mutates the session in place. -/
def extend_session (st : SessionStore) (g u : Nat) (now timeout : Nat) :
    Bool × SessionStore :=
  match get_session st g u now with
  | (some s, st') =>
    (true, st'.map (fun e => if e.1 = (g, u) then (e.1, s.extend now timeout) else e))
  | (none, st') => (false, st')

/-! ## Concurrency model of `update_blockchain_score` (web3_service.py)

Two concurrently dequeued sync jobs each run the body of
`update_blockchain_score`.  Its structure is

    async with self._nonce_lock:        -- acquire   (pc 0 → 1)
        nonce…build…sign…send_raw_transaction   -- submit (pc 1 → 2)
    -- lock released                    -- release   (pc 2 → 3)
    wait_for_transaction_receipt(…)     -- confirm   (pc 3 → 4)

i.e. the submission happens under the global nonce lock, but waiting for
the confirmation happens *after* the `async with` block ends.  The model
interleaves the two tasks at these four atomic steps and records the
ledger-observable events. -/

inductive LedgerEvent where
  | submit (t : Bool)
  | confirm (t : Bool)
  deriving DecidableEq, Repr

structure SyncSystem where
  lock : Option Bool
  pc0 : Nat
  pc1 : Nat
  trace : List LedgerEvent
  deriving DecidableEq, Repr

def SyncSystem.pc (s : SyncSystem) (t : Bool) : Nat :=
  if t then s.pc1 else s.pc0

def SyncSystem.setPc (s : SyncSystem) (t : Bool) (n : Nat) : SyncSystem :=
  if t then { s with pc1 := n } else { s with pc0 := n }

def syncInit : SyncSystem :=
  { lock := none, pc0 := 0, pc1 := 0, trace := [] }

/-- One atomic step of task `t`; a task blocked on the lock (or already
done) leaves the state unchanged. -/
def syncStep (s : SyncSystem) (t : Bool) : SyncSystem :=
  match s.pc t with
  | 0 => if s.lock = none then { s.setPc t 1 with lock := some t } else s
  | 1 => { s.setPc t 2 with trace := s.trace ++ [.submit t] }
  | 2 => { s.setPc t 3 with lock := none }
  | 3 => { s.setPc t 4 with trace := s.trace ++ [.confirm t] }
  | _ => s

/-- Run the two-task system under a given interleaving schedule. -/
def syncRun (sched : List Bool) : SyncSystem :=
  sched.foldl syncStep syncInit

/-- `true` iff the event list contains two `submit`s with no `confirm`
strictly between them; `pending` records whether an unconfirmed submit
was already seen. -/
def submits_without_confirm : List LedgerEvent → Bool → Bool
  | [], _ => false
  | .submit _ :: rest, pending => pending || submits_without_confirm rest true
  | .confirm _ :: rest, _ => submits_without_confirm rest false

/-- Task `t` is inside the region protected by `_nonce_lock`
(between acquisition and release). -/
def inLocked (s : SyncSystem) (t : Bool) : Prop :=
  s.pc t = 1 ∨ s.pc t = 2

instance (s : SyncSystem) (t : Bool) : Decidable (inLocked s t) := by
  unfold inLocked; infer_instance

/-- The lock-ownership invariant of the system. -/
def LockInv (s : SyncSystem) : Prop :=
  ∀ t : Bool, inLocked s t → s.lock = some t

def lowerByte (b : Nat) : Nat := if 65 ≤ b ∧ b ≤ 90 then b + 32 else b

def pyLower (s : List Nat) : List Nat := s.map lowerByte

/-- Model AES-GCM keystream: some fixed function of key, nonce, position. -/
def gcmStream (key nonce : List Nat) (len : Nat) : List Nat :=
  (List.range len).map fun i =>
    (key.foldl (fun a b => a * 31 + b) 17 +
     nonce.foldl (fun a b => a * 31 + b) 19 + i * 127) % 256

def TAG_LEN : Nat := 16

/-- Model AES-GCM authentication tag over the ciphertext body. -/
def gcmTag (key nonce body : List Nat) : List Nat :=
  (List.range TAG_LEN).map fun i =>
    (body.foldl (fun a b => a * 31 + b)
      (i + key.foldl (· + ·) 0 + nonce.foldl (· + ·) 11)) % 256

def aesgcm_encrypt (key nonce pt : List Nat) : List Nat :=
  let body := pt.zipWith (· ^^^ ·) (gcmStream key nonce pt.length)
  body ++ gcmTag key nonce body

def aesgcm_decrypt (key nonce ct : List Nat) : Option (List Nat) :=
  let body := ct.take (ct.length - TAG_LEN)
  let tag := ct.drop (ct.length - TAG_LEN)
  if tag = gcmTag key nonce body then
    some (body.zipWith (· ^^^ ·) (gcmStream key nonce body.length))
  else none

/-- Embedding of `SecureWalletStore.encrypt` (telegram_group_bot.py):
draws a fresh 96-bit nonce (passed here as the argument modelling the
randomness) and encrypts `wallet_address.lower().encode('utf-8')`,
returning `(nonce, ciphertext)`. -/
def walletStore_encrypt (key nonce wallet : List Nat) : List Nat × List Nat :=
  (nonce, aesgcm_encrypt key nonce (pyLower wallet))

/-- Embedding of `SecureWalletStore.decrypt` (telegram_group_bot.py). -/
def walletStore_decrypt (key nonce ciphertext : List Nat) : Option (List Nat) :=
  aesgcm_decrypt key nonce ciphertext

def b64Char (n : Nat) : Char :=
  if n < 26 then Char.ofNat (65 + n)
  else if n < 52 then Char.ofNat (97 + (n - 26))
  else if n < 62 then Char.ofNat (48 + (n - 52))
  else if n = 62 then '-'
  else '_'

def b64Val (c : Char) : Option Nat :=
  if 'A' ≤ c ∧ c ≤ 'Z' then some (c.toNat - 65)
  else if 'a' ≤ c ∧ c ≤ 'z' then some (c.toNat - 97 + 26)
  else if '0' ≤ c ∧ c ≤ '9' then some (c.toNat - 48 + 52)
  else if c = '-' then some 62
  else if c = '_' then some 63
  else none

def isB64OrPad (c : Char) : Bool := (b64Val c).isSome || c = '='

/-- `base64.urlsafe_b64encode`: canonical encoding with `=` padding. -/
def pyB64Encode : List Nat → List Char
  | [] => []
  | [a] => [b64Char (a / 4), b64Char (a % 4 * 16), '=', '=']
  | [a, b] => [b64Char (a / 4), b64Char (a % 4 * 16 + b / 16), b64Char (b % 16 * 4), '=']
  | a :: b :: c :: rest =>
    b64Char (a / 4) :: b64Char (a % 4 * 16 + b / 16) ::
    b64Char (b % 16 * 4 + c / 64) :: b64Char (c % 64) :: pyB64Encode rest

/-- Decode the data characters (everything before the first `=`);
a final group of 2 or 3 characters contributes 1 or 2 bytes, and the
unused low bits of its last character are discarded — exactly Python's
(`binascii`) leniency that makes those bits malleable. -/
def pyB64DecodeBody : List Char → Option (List Nat)
  | [] => some []
  | [c1, c2] => do
    let v1 ← b64Val c1
    let v2 ← b64Val c2
    pure [v1 * 4 + v2 / 16]
  | [c1, c2, c3] => do
    let v1 ← b64Val c1
    let v2 ← b64Val c2
    let v3 ← b64Val c3
    pure [v1 * 4 + v2 / 16, v2 % 16 * 16 + v3 / 4]
  | c1 :: c2 :: c3 :: c4 :: rest => do
    let v1 ← b64Val c1
    let v2 ← b64Val c2
    let v3 ← b64Val c3
    let v4 ← b64Val c4
    let tail ← pyB64DecodeBody rest
    pure ((v1 * 4 + v2 / 16) :: (v2 % 16 * 16 + v3 / 4) :: (v3 % 4 * 64 + v4) :: tail)
  | [_] => none

/-- `base64.urlsafe_b64decode` with Python's default lenient mode:
characters outside the alphabet are discarded first, then the length
must be divisible by 4 ("Incorrect padding" otherwise, which the caller
turns into a rejected token), then the data before the first `=` is
decoded. -/
def pyUrlsafeB64Decode (s : List Char) : Option (List Nat) :=
  let t := s.filter isB64OrPad
  if t.length % 4 ≠ 0 then none
  else pyB64DecodeBody (t.takeWhile (fun c => c ≠ '='))

/-- One lowercase hex digit, as in `hexdigest()`. -/
def hexDigit (n : Nat) : Char :=
  Char.ofNat (if n % 16 < 10 then 48 + n % 16 else 87 + n % 16)

/-- `hexdigest()` of a byte string. -/
def hexChars (bs : List Nat) : List Char :=
  bs.flatMap fun b => [hexDigit (b / 16 % 16), hexDigit (b % 16)]

/-- Python `str.split(sep)` for a one-character separator
(`"".split(".") == [""]`, so the result is never empty). -/
def pySplit (sep : Char) : List Char → List (List Char)
  | [] => [[]]
  | c :: rest =>
    match pySplit sep rest with
    | [] => [[]]
    | p :: ps => if c = sep then [] :: p :: ps else (c :: p) :: ps

structure TokenPayload where
  caps : List (List Char)
  exp : Nat
  link : List Char
  deriving DecidableEq, Repr

/-- JSON string quoting, for capability names and invite links that
contain no characters needing escapes (true of the `"write"`/`"poll_NN"`
capabilities and invite URLs the source produces). -/
def jsonQuote (s : List Char) : List Char := '"' :: (s ++ ['"'])

def natChars (n : Nat) : List Char := Nat.toDigits 10 n

/-- The exact text `json.dumps(payload, sort_keys=True)` produces for the
payload dict built in `create_token`: keys in the order `caps`, `exp`,
`link`, with Python's default `", "` / `": "` separators. -/
def jsonDumps (p : TokenPayload) : List Char :=
  "\x7b\"caps\": [".data ++
  List.intercalate ", ".data (p.caps.map jsonQuote) ++
  "], \"exp\": ".data ++ natChars p.exp ++
  ", \"link\": ".data ++ jsonQuote p.link ++ "\x7d".data

def expectLit : List Char → List Char → Option (List Char)
  | [], s => some s
  | _ :: _, [] => none
  | l :: ls, c :: cs => if c = l then expectLit ls cs else none

def parseQuoted : List Char → Option (List Char × List Char)
  | '"' :: cs =>
    let content := cs.takeWhile (fun c => c ≠ '"')
    match cs.drop content.length with
    | '"' :: r => some (content, r)
    | _ => none
  | _ => none

def parseCapsItems : Nat → List Char → Option (List (List Char) × List Char)
  | 0, _ => none
  | fuel + 1, s => do
    let (item, r1) ← parseQuoted s
    match r1 with
    | ']' :: r2 => some ([item], r2)
    | ',' :: ' ' :: r2 => do
      let (items, r3) ← parseCapsItems fuel r2
      some (item :: items, r3)
    | _ => none

def parseCaps (s : List Char) : Option (List (List Char) × List Char) :=
  match s with
  | '[' :: ']' :: r => some ([], r)
  | '[' :: r => parseCapsItems s.length r
  | _ => none

def digitsToNat (ds : List Char) : Nat :=
  ds.foldl (fun a c => a * 10 + (c.toNat - 48)) 0

def parseNat (s : List Char) : Option (Nat × List Char) :=
  let ds := s.takeWhile Char.isDigit
  if ds.isEmpty then none
  else some (digitsToNat ds, s.drop ds.length)

/-- Parser for the canonical payload JSON above — standing in for
`json.loads` on the strings `verify_token` decodes; any deviation from
the canonical shape is a parse failure, which `verify_token` turns into
a rejection (`json.loads` raising is caught by the source's
`try/except`). -/
def jsonParse (s : List Char) : Option TokenPayload := do
  let r1 ← expectLit "\x7b\"caps\": ".data s
  let (caps, r2) ← parseCaps r1
  let r3 ← expectLit ", \"exp\": ".data r2
  let (e, r4) ← parseNat r3
  let r5 ← expectLit ", \"link\": ".data r4
  let (link, r6) ← parseQuoted r5
  match r6 with
  | ['\x7d'] => some ⟨caps, e, link⟩
  | _ => none

/-- Embedding of `CapabilityTokenManager.create_token`
(telegram_group_bot.py).  `exp` is the absolute expiry timestamp the
source computes as `int(time.time()) + expire_seconds`; `mac` models
HMAC-SHA256 with the manager's server-held secret. -/
def create_token (mac : List Nat → List Nat) (capabilities : List (List Char))
    (invite_link : List Char) (exp : Nat) : List Char :=
  let payload_json := jsonDumps ⟨capabilities, exp, invite_link⟩
  let payload_bytes := payload_json.map Char.toNat
  pyB64Encode payload_bytes ++ '.' :: hexChars (mac payload_bytes)

/-- Embedding of `CapabilityTokenManager.verify_token`
(telegram_group_bot.py): split on `"."` and reject unless exactly two
parts; base64-decode the payload part (a decoding error is caught by the
source's `try/except` and rejected); recompute the HMAC hexdigest and
compare (`hmac.compare_digest` — constant-time, semantically string
equality); parse the JSON; reject when `now > exp`; else return payload. -/
def verify_token (mac : List Nat → List Nat) (token : List Char) (now : Nat) :
    Option TokenPayload :=
  match pySplit '.' token with
  | [payload_b64, signature] =>
    match pyUrlsafeB64Decode payload_b64 with
    | none => none
    | some payload_bytes =>
      let expected_sig := hexChars (mac payload_bytes)
      if signature = expected_sig then
        match jsonParse (payload_bytes.map Char.ofNat) with
        | none => none
        | some payload => if now > payload.exp then none else some payload
      else none
  | _ => none

/-! ### Base64 facts used by the token theorems -/

/-- Both tasks simultaneously inside the `_nonce_lock`-protected region
(decidable form of the mutual-exclusion property). -/
def bothInLocked (s : SyncSystem) : Bool :=
  decide (inLocked s false) && decide (inLocked s true)

/-- A degenerate stand-in MAC for closed evaluations of the token
pipeline (its collision behavior plays no role in those statements). -/
def macZero : List Nat → List Nat := fun _ => [0]

/-- A concrete session used by the session-lifecycle counterexample:
user 2, expiry at t = 10. -/
def sessA : UserSession :=
  { telegram_id := 2, last_score := 0, session_start := 0,
    last_activity := 0, last_score_check := 0, expires := 10 }

/-! ## Lemmas and claim theorems -/

@[simp] lemma pc_setPc (s : SyncSystem) (t u : Bool) (n : Nat) :
    (s.setPc t n).pc u = if u = t then n else s.pc u := by
  cases t <;> cases u <;> simp [SyncSystem.setPc, SyncSystem.pc]

@[simp] lemma lock_setPc (s : SyncSystem) (t : Bool) (n : Nat) :
    (s.setPc t n).lock = s.lock := by
  cases t <;> rfl

@[simp] lemma pc_withLock (s : SyncSystem) (l : Option Bool) (u : Bool) :
    SyncSystem.pc { s with lock := l } u = s.pc u := by
  cases u <;> rfl

@[simp] lemma pc_withTrace (s : SyncSystem) (tr : List LedgerEvent) (u : Bool) :
    SyncSystem.pc { s with trace := tr } u = s.pc u := by
  cases u <;> rfl

@[simp] lemma lock_withTrace (s : SyncSystem) (tr : List LedgerEvent) :
    SyncSystem.lock { s with trace := tr } = s.lock := rfl

lemma lockInv_step (s : SyncSystem) (t : Bool) (h : LockInv s) :
    LockInv (syncStep s t) := by
  unfold syncStep
  split
  · -- pc t = 0: try to acquire
    split
    · rename_i hpc hlock
      intro u hu
      unfold inLocked at hu
      simp only [pc_withLock, pc_setPc] at hu
      by_cases hut : u = t
      · subst hut; rfl
      · simp only [hut, if_false] at hu
        have := h u hu
        rw [hlock] at this
        cases this
    · exact h
  · -- pc t = 1: submit (pc t := 2, still inside the lock)
    rename_i hpc
    intro u hu
    unfold inLocked at hu
    simp only [pc_withTrace, pc_setPc] at hu
    simp only [lock_withTrace, lock_setPc]
    by_cases hut : u = t
    · subst hut; exact h u (Or.inl hpc)
    · simp only [hut, if_false] at hu
      exact h u hu
  · -- pc t = 2: release
    rename_i hpc
    intro u hu
    unfold inLocked at hu
    simp only [pc_withLock, pc_setPc] at hu
    by_cases hut : u = t
    · subst hut
      simp at hu
    · simp only [hut, if_false] at hu
      have hu' := h u hu
      have ht' := h t (Or.inr hpc)
      rw [ht'] at hu'
      cases hu'
      exact absurd rfl hut
  · -- pc t = 3: confirm (outside the lock)
    rename_i hpc
    intro u hu
    unfold inLocked at hu
    simp only [pc_withTrace, pc_setPc] at hu
    simp only [lock_withTrace, lock_setPc]
    by_cases hut : u = t
    · subst hut
      simp at hu
    · simp only [hut, if_false] at hu
      exact h u hu
  · exact h

lemma lockInv_foldl (sched : List Bool) (s : SyncSystem) (h : LockInv s) :
    LockInv (sched.foldl syncStep s) := by
  induction sched generalizing s with
  | nil => exact h
  | cons t rest ih => exact ih _ (lockInv_step s t h)

lemma lockInv_run (sched : List Bool) : LockInv (syncRun sched) := by
  apply lockInv_foldl
  intro t ht
  rcases ht with ht | ht <;> cases t <;> simp [syncInit, SyncSystem.pc] at ht

/-! ## Secure wallet vault (telegram_group_bot.py, SecureWalletStore)

Byte strings are `List Nat`.  AES-256-GCM (an external library primitive)
is modelled by its structure: ciphertext body = plaintext XOR keystream,
followed by a 16-byte authentication tag over the body; decryption
recomputes and checks the tag, failing (`none`, the library raises) on a
mismatch.  The keystream/tag functions are arbitrary fixed functions of
key and nonce — no theorem below depends on their values, only on the
stream-cipher-with-MAC shape. -/

/-- Python `str.lower()` at the byte level (wallet addresses are ASCII
hex strings): ASCII uppercase letters are mapped down. -/
lemma length_gcmStream (key nonce : List Nat) (len : Nat) :
    (gcmStream key nonce len).length = len := by
  simp [gcmStream]

lemma zipWith_xor_cancel :
    ∀ (pt s : List Nat), pt.length ≤ s.length →
      (pt.zipWith (· ^^^ ·) s).zipWith (· ^^^ ·) s = pt
  | [], _, _ => by simp
  | a :: pt, b :: s, h => by
    simp only [List.zipWith_cons_cons]
    rw [zipWith_xor_cancel pt s (by simpa using h)]
    simp [Nat.xor_assoc]

lemma aesgcm_round_trip (key nonce pt : List Nat) :
    aesgcm_decrypt key nonce (aesgcm_encrypt key nonce pt) = some pt := by
  unfold aesgcm_encrypt aesgcm_decrypt
  have hbody : (pt.zipWith (· ^^^ ·) (gcmStream key nonce pt.length)).length = pt.length := by
    simp [List.length_zipWith, length_gcmStream]
  have htag : (gcmTag key nonce (pt.zipWith (· ^^^ ·) (gcmStream key nonce pt.length))).length = TAG_LEN := by
    simp [gcmTag]
  set body := pt.zipWith (· ^^^ ·) (gcmStream key nonce pt.length) with hb
  have hlen : (body ++ gcmTag key nonce body).length - TAG_LEN = body.length := by
    simp [htag]
  rw [hlen]
  rw [List.take_left, List.drop_left]
  simp only [if_pos rfl]
  rw [hbody, hb]
  rw [zipWith_xor_cancel pt _ (by rw [length_gcmStream])]
  simp

/-! ## Capability tokens (telegram_group_bot.py, CapabilityTokenManager)

Token format: `base64.urlsafe_b64encode(payload_json) + "." + hmac_hexdigest`.
The pieces are modelled byte-for-byte: URL-safe base64 with Python's
lenient decoder (invalid characters are discarded, the 4-divisibility
padding check is enforced, trailing bits of a final partial group are
ignored), hex digests, `str.split(".")`, and the exact JSON text
`json.dumps({...}, sort_keys=True)` produces for the fixed payload shape.
HMAC-SHA256 itself is an external primitive and is a function parameter
`mac : List Nat → List Nat`. -/

/-- The URL-safe base64 alphabet, `A-Z a-z 0-9 - _`. -/
lemma pySplit_cons (sep c : Char) (rest : List Char) :
    pySplit sep (c :: rest) =
      match pySplit sep rest with
      | [] => [[]]
      | p :: ps => if c = sep then [] :: p :: ps else (c :: p) :: ps := rfl

lemma pySplit_ne_nil (sep : Char) (s : List Char) : pySplit sep s ≠ [] := by
  induction s with
  | nil => simp [pySplit]
  | cons c rest ih =>
    rw [pySplit_cons]
    cases h : pySplit sep rest with
    | nil => simp
    | cons p ps => by_cases hc : c = sep <;> simp [hc]

lemma pySplit_no_sep (sep : Char) (s : List Char) (h : sep ∉ s) :
    pySplit sep s = [s] := by
  induction s with
  | nil => rfl
  | cons c rest ih =>
    have hc : c ≠ sep := fun e => h (e ▸ List.mem_cons_self c rest)
    have hr : sep ∉ rest := fun e => h (List.mem_cons_of_mem c e)
    rw [pySplit_cons, ih hr]
    simp [hc]

lemma pySplit_append_sep (sep : Char) (s t : List Char) (h : sep ∉ s) :
    pySplit sep (s ++ sep :: t) = s :: pySplit sep t := by
  induction s with
  | nil =>
    simp only [List.nil_append]
    rw [pySplit_cons]
    cases ht : pySplit sep t with
    | nil => exact absurd ht (pySplit_ne_nil sep t)
    | cons p ps => simp
  | cons c s' ih =>
    have hc : c ≠ sep := fun e => h (e ▸ List.mem_cons_self c s')
    have hs : sep ∉ s' := fun e => h (List.mem_cons_of_mem c e)
    simp only [List.cons_append]
    rw [pySplit_cons, ih hs]
    simp [hc]

lemma two_le_length_pySplit (sep : Char) (s : List Char) (h : sep ∈ s) :
    2 ≤ (pySplit sep s).length := by
  induction s with
  | nil => cases h
  | cons c rest ih =>
    rw [pySplit_cons]
    cases hr : pySplit sep rest with
    | nil => exact absurd hr (pySplit_ne_nil sep rest)
    | cons p ps =>
      by_cases hc : c = sep
      · simp [hc]
      · have hmem : sep ∈ rest := by
          cases List.mem_cons.mp h with
          | inl e => exact absurd e.symm hc
          | inr e => exact e
        have h2 := ih hmem
        rw [hr] at h2
        simp only [List.length_cons] at h2
        simp only [hc, if_false, List.length_cons]
        omega

/-- The payload of a capability token: caps, expiry, bound invite link. -/
lemma b64Val_b64Char (n : Nat) (h : n < 64) : b64Val (b64Char n) = some n := by
  have key : ∀ m : Fin 64, b64Val (b64Char m.val) = some m.val := by decide
  exact key ⟨n, h⟩

lemma b64Char_ne_pad (n : Nat) (h : n < 64) : b64Char n ≠ '=' := by
  have key : ∀ m : Fin 64, b64Char m.val ≠ '=' := by decide
  exact key ⟨n, h⟩

lemma isB64OrPad_b64Char (n : Nat) (h : n < 64) : isB64OrPad (b64Char n) = true := by
  simp [isB64OrPad, b64Val_b64Char n h]

lemma encode_all_valid :
    ∀ (bs : List Nat), (∀ b ∈ bs, b < 256) →
      ∀ c ∈ pyB64Encode bs, isB64OrPad c = true
  | [], _, c, hc => by simp [pyB64Encode] at hc
  | [a], h, c, hc => by
    have ha : a < 256 := h a (by simp)
    simp only [pyB64Encode, List.mem_cons, List.not_mem_nil, or_false] at hc
    rcases hc with rfl | rfl | rfl | rfl
    · exact isB64OrPad_b64Char _ (by omega)
    · exact isB64OrPad_b64Char _ (by omega)
    · decide
    · decide
  | [a, b], h, c, hc => by
    have ha : a < 256 := h a (by simp)
    have hb : b < 256 := h b (by simp)
    simp only [pyB64Encode, List.mem_cons, List.not_mem_nil, or_false] at hc
    rcases hc with rfl | rfl | rfl | rfl
    · exact isB64OrPad_b64Char _ (by omega)
    · exact isB64OrPad_b64Char _ (by omega)
    · exact isB64OrPad_b64Char _ (by omega)
    · decide
  | a :: b :: d :: rest, h, c, hc => by
    have ha : a < 256 := h a (by simp)
    have hb : b < 256 := h b (by simp)
    have hd : d < 256 := h d (by simp)
    simp only [pyB64Encode, List.mem_cons] at hc
    rcases hc with rfl | rfl | rfl | rfl | hc
    · exact isB64OrPad_b64Char _ (by omega)
    · exact isB64OrPad_b64Char _ (by omega)
    · exact isB64OrPad_b64Char _ (by omega)
    · exact isB64OrPad_b64Char _ (by omega)
    · exact encode_all_valid rest (fun x hx => h x (by simp [hx])) c hc

lemma length_encode_mod4 :
    ∀ (bs : List Nat), (pyB64Encode bs).length % 4 = 0
  | [] => by simp [pyB64Encode]
  | [_] => by simp [pyB64Encode]
  | [_, _] => by simp [pyB64Encode]
  | _ :: _ :: _ :: rest => by
    have := length_encode_mod4 rest
    simp only [pyB64Encode, List.length_cons]
    omega

lemma decodeBody_takeWhile_encode :
    ∀ (bs : List Nat), (∀ b ∈ bs, b < 256) →
      pyB64DecodeBody ((pyB64Encode bs).takeWhile (fun c => c ≠ '=')) = some bs
  | [], _ => by simp [pyB64Encode, pyB64DecodeBody]
  | [a], h => by
    have ha : a < 256 := h a (by simp)
    have h1 : a / 4 < 64 := by omega
    have h2 : a % 4 * 16 < 64 := by omega
    simp only [pyB64Encode, List.takeWhile_cons]
    rw [if_pos (by simpa using b64Char_ne_pad _ h1),
        if_pos (by simpa using b64Char_ne_pad _ h2)]
    simp only [ne_eq, not_true_eq_false, decide_False, Bool.false_eq_true,
      if_false, List.takeWhile_nil]
    simp [pyB64DecodeBody, b64Val_b64Char _ h1, b64Val_b64Char _ h2]
    omega
  | [a, b], h => by
    have ha : a < 256 := h a (by simp)
    have hb : b < 256 := h b (by simp)
    have h1 : a / 4 < 64 := by omega
    have h2 : a % 4 * 16 + b / 16 < 64 := by omega
    have h3 : b % 16 * 4 < 64 := by omega
    simp only [pyB64Encode, List.takeWhile_cons]
    rw [if_pos (by simpa using b64Char_ne_pad _ h1),
        if_pos (by simpa using b64Char_ne_pad _ h2),
        if_pos (by simpa using b64Char_ne_pad _ h3)]
    simp only [ne_eq, not_true_eq_false, decide_False, Bool.false_eq_true,
      if_false, List.takeWhile_nil]
    simp [pyB64DecodeBody, b64Val_b64Char _ h1, b64Val_b64Char _ h2,
      b64Val_b64Char _ h3]
    constructor
    · omega
    · omega
  | a :: b :: d :: rest, h => by
    have ha : a < 256 := h a (by simp)
    have hb : b < 256 := h b (by simp)
    have hd : d < 256 := h d (by simp)
    have h1 : a / 4 < 64 := by omega
    have h2 : a % 4 * 16 + b / 16 < 64 := by omega
    have h3 : b % 16 * 4 + d / 64 < 64 := by omega
    have h4 : d % 64 < 64 := by omega
    have ih := decodeBody_takeWhile_encode rest (fun x hx => h x (by simp [hx]))
    simp only [ne_eq, decide_not] at ih
    simp only [pyB64Encode, List.cons_append, List.takeWhile_cons]
    rw [if_pos (by simpa using b64Char_ne_pad _ h1),
        if_pos (by simpa using b64Char_ne_pad _ h2),
        if_pos (by simpa using b64Char_ne_pad _ h3),
        if_pos (by simpa using b64Char_ne_pad _ h4)]
    have k1 : (a % 4 * 16 + b / 16) / 16 = a % 4 := by
      rw [mul_comm (a % 4) 16, Nat.mul_add_div (by norm_num : 0 < 16)]
      have : b / 16 / 16 = 0 := Nat.div_eq_of_lt (by omega)
      rw [this]
      omega
    have k2a : (a % 4 * 16 + b / 16) % 16 = b / 16 := by
      rw [mul_comm (a % 4) 16, Nat.mul_add_mod]
      exact Nat.mod_eq_of_lt (by omega)
    have k2b : (b % 16 * 4 + d / 64) / 4 = b % 16 := by
      rw [mul_comm (b % 16) 4, Nat.mul_add_div (by norm_num : 0 < 4)]
      have : d / 64 / 4 = 0 := Nat.div_eq_of_lt (by omega)
      rw [this]
      omega
    have k3 : (b % 16 * 4 + d / 64) % 4 = d / 64 := by
      rw [mul_comm (b % 16) 4, Nat.mul_add_mod]
      exact Nat.mod_eq_of_lt (by omega)
    have hb1 : a / 4 * 4 + (a % 4 * 16 + b / 16) / 16 = a := by
      rw [k1]; omega
    have hb2 : (a % 4 * 16 + b / 16) % 16 * 16 + (b % 16 * 4 + d / 64) / 4 = b := by
      rw [k2a, k2b]; omega
    have hb3 : (b % 16 * 4 + d / 64) % 4 * 64 + d % 64 = d := by
      rw [k3]; omega
    simp [pyB64DecodeBody, b64Val_b64Char _ h1, b64Val_b64Char _ h2,
      b64Val_b64Char _ h3, b64Val_b64Char _ h4, ih, hb1, hb2, hb3]

lemma b64_round_trip (bs : List Nat) (h : ∀ b ∈ bs, b < 256) :
    pyUrlsafeB64Decode (pyB64Encode bs) = some bs := by
  unfold pyUrlsafeB64Decode
  rw [List.filter_eq_self.mpr (encode_all_valid bs h)]
  simp only [length_encode_mod4 bs, ne_eq, not_true_eq_false, if_false,
    reduceIte, not_false_eq_true]
  exact decodeBody_takeWhile_encode bs h

lemma dot_not_mem_encode (bs : List Nat) (h : ∀ b ∈ bs, b < 256) :
    '.' ∉ pyB64Encode bs := by
  intro hmem
  have := encode_all_valid bs h '.' hmem
  simp [isB64OrPad, b64Val] at this

lemma hexDigit_ne_dot (n : Nat) : hexDigit n ≠ '.' := by
  have key : ∀ m : Fin 16,
      Char.ofNat (if m.val < 10 then 48 + m.val else 87 + m.val) ≠ '.' := by decide
  have hlt : n % 16 < 16 := Nat.mod_lt _ (by norm_num)
  have := key ⟨n % 16, hlt⟩
  simpa [hexDigit] using this

lemma dot_not_mem_hexChars (bs : List Nat) : '.' ∉ hexChars bs := by
  intro hmem
  simp only [hexChars, List.mem_flatMap, List.mem_cons, List.not_mem_nil,
    or_false] at hmem
  obtain ⟨b, _, hc⟩ := hmem
  rcases hc with hc | hc <;> exact hexDigit_ne_dot _ hc.symm

/-! ## Claim C1 -/

/-- **C1, counterexample.**  The claim says `should_sync_resonance`
returns true only at even milestones and in particular returns false for
every odd total that differs from the ledger value.  At total resonance 3
with ledger value 0 — odd and different — it returns true: the milestone
check in `should_sync_resonance` is `total % 1 != 0` (milestone 1,
vacuous on integers), not `total % 2 != 0`. -/
theorem should_sync_odd_total_syncs :
    (should_sync_resonance 3 0).1 = true ∧ (3 : Int) % 2 ≠ 0 ∧ (3 : Int) ≠ 0 := by
  decide

/-- **C1, amended.**  `should_sync_resonance` syncs at every point change:
it returns true exactly when the total differs from the ledger value (its
milestone modulus is 1, which no integer fails).  The even-milestone
(mod-2) gate of the spec lives in `sync_score_after_update`, which
submits exactly the even totals. -/
theorem should_sync_resonance_semantics :
    (∀ total blockchain : Int,
        (should_sync_resonance total blockchain).1 = true ↔ total ≠ blockchain) ∧
    (∀ total : Int,
        sync_score_after_update total = if total % 2 = 0 then some total else none) := by
  constructor
  · intro total blockchain
    unfold should_sync_resonance
    rw [Int.emod_one]
    by_cases h : blockchain = total
    · subst h; simp
    · simp [h]
      exact fun e => h e.symm
  · intro total
    unfold sync_score_after_update
    by_cases h : total % 2 = 0 <;> simp [h]

/-! ## Claim C2 -/

/-- **C2.**  `force_sync_on_login` submits a *lower* ledger target on a
single observation: with DB total resonance 10 and ledger value 14 it
submits 10 at once — there is no two-consecutive-observation persistence
check anywhere on this path, contradicting the spec's non-destructive
downward-sync policy (which spec §9 itself marks as the intent, calling
this path a latent bug). -/
theorem force_sync_downward_in_one_observation :
    force_sync_on_login 10 14 = some 10 ∧ (10 : Int) < 14 := by
  decide

/-! ## Claim C3 -/

/-- **C3, counterexample.**  Schedule: task 0 acquires the lock, submits
and releases; then task 1 acquires and submits — before task 0's
confirmation ever happens.  The ledger-event trace contains two
submissions with no confirmation between them, because
`wait_for_transaction_receipt` is outside the `async with self._nonce_lock`
block. -/
theorem two_submissions_without_confirmation :
    (syncRun [false, false, false, true, true]).trace =
      [LedgerEvent.submit false, LedgerEvent.submit true] ∧
    submits_without_confirm (syncRun [false, false, false, true, true]).trace false = true := by
  decide

/-- **C3, amended.**  What the global `_nonce_lock` does guarantee: the
submission region itself (nonce acquisition, build, sign, send) is
mutually exclusive — in no reachable state are both tasks inside the
locked region.  Awaiting the confirmation is outside the lock, so an
intervening confirmation between two submissions is *not* guaranteed
(see the counterexample). -/
theorem nonce_lock_mutual_exclusion :
    ∀ sched : List Bool, bothInLocked (syncRun sched) = false := by
  intro sched
  unfold bothInLocked
  by_cases h0 : inLocked (syncRun sched) false
  · by_cases h1 : inLocked (syncRun sched) true
    · have inv := lockInv_run sched
      have e0 := inv false h0
      have e1 := inv true h1
      rw [e0] at e1
      cases e1
    · simp [h1]
  · simp [h0]

/-! ## Claim C8 -/

/-- **C8, counterexample.**  After `MAX_RETRIES` (3) consecutive
failures the job is *not* abandoned: it is re-queued with retry counter
3 (the worker abandons only when a failure occurs with
`retries < MAX_RETRIES` already false, i.e. on the 4th consecutive
failure). -/
theorem three_failures_requeue :
    run_job 0 [false, false, false] = JobFate.requeued 3 ∧
    JobFate.requeued 3 ≠ JobFate.abandoned := by
  decide

/-- **C8, amended.**  A failed submission re-queues the job with its
retry counter incremented (after the fixed `RETRY_DELAY_SECONDS` sleep)
as long as `retries < MAX_RETRIES`; a failure at `retries = MAX_RETRIES`
abandons it — so abandonment happens after the 4th consecutive failure
(initial attempt plus `MAX_RETRIES` retries), and a job is discarded
exactly on success (committed) or on that 4th failure. -/
theorem retry_ceiling_semantics :
    (∀ r : Nat, process_step r true = JobFate.committed) ∧
    (∀ r : Nat, r < MAX_RETRIES → process_step r false = JobFate.requeued (r + 1)) ∧
    (∀ r : Nat, MAX_RETRIES ≤ r → process_step r false = JobFate.abandoned) ∧
    run_job 0 (List.replicate (MAX_RETRIES + 1) false) = JobFate.abandoned := by
  refine ⟨fun r => rfl, fun r h => ?_, fun r h => ?_, by decide⟩
  · simp [process_step, h]
  · simp [process_step, Nat.not_lt.mpr h]

/-! ## Claim C10 -/

/-- **C10.**  When `update_blockchain_score` obtains a receipt within the
confirmation timeout it returns `True` even for receipt status 0 (the
on-chain transaction reverted) — only the informational status string
says `"failed"` — and the queue worker, seeing success, writes
`blockchain_score = score` into the local database. -/
theorem reverted_tx_still_reports_success :
    ∀ old score : Int,
      (update_blockchain_score_result (ReceiptOutcome.receipt 0)).1 = true ∧
      (update_blockchain_score_result (ReceiptOutcome.receipt 0)).2 = "failed" ∧
      worker_db_blockchain_score
        (update_blockchain_score_result (ReceiptOutcome.receipt 0)).1 old score = score := by
  intro old score
  exact ⟨rfl, rfl, rfl⟩

/-! ## Claim C9 -/

/-- **C9, counterexample.**  A mere lookup destroys a session: with one
stored session that expired at t = 10, calling `get_session` at t = 11
returns `None` *and deletes the entry*
(`del self.sessions[group_id][telegram_id]` inside `get_session`) — the
store afterwards is empty, though neither the background sweep nor
`end_session` ran. -/
theorem get_session_deletes_expired :
    (get_session [((1, 2), sessA)] 1 2 11).2 = [] ∧
    ([((1, 2), sessA)] : SessionStore) ≠ [] := by
  constructor
  · rfl
  · intro h; cases h

/-- **C9, amended.**  Sessions are destroyed by the background sweep
(`_cleanup_expired`), by explicit leave (`end_session`) — and in
addition by any lookup (`get_session`, hence also activity handling via
`extend_session`) that finds the stored session expired.  A lookup never
destroys a live session: when the session is unexpired, `get_session`
returns it and leaves the store untouched; when it is expired, exactly
that key is removed; the sweep keeps exactly the unexpired entries. -/
theorem session_destruction_semantics :
    (∀ (st : SessionStore) (g u now : Nat) (s : UserSession),
        st.lookup g u = some s → s.is_expired now = false →
        get_session st g u now = (some s, st)) ∧
    (∀ (st : SessionStore) (g u now : Nat) (s : UserSession),
        st.lookup g u = some s → s.is_expired now = true →
        get_session st g u now = (none, st.remove g u)) ∧
    (∀ (st : SessionStore) (g u now : Nat),
        st.lookup g u = none → get_session st g u now = (none, st)) ∧
    (∀ (st : SessionStore) (now : Nat) (e : (Nat × Nat) × UserSession),
        e ∈ cleanup_expired st now → e.2.is_expired now = false) := by
  refine ⟨?_, ?_, ?_, ?_⟩
  · intro st g u now s hl he
    unfold get_session
    rw [hl]
    simp [he]
  · intro st g u now s hl he
    unfold get_session
    rw [hl]
    simp [he]
  · intro st g u now hl
    unfold get_session
    rw [hl]
  · intro st now e he
    unfold cleanup_expired at he
    have := List.of_mem_filter he
    simpa using this

/-! ## Claim C5 -/

/-- **C5, counterexample.**  `SecureWalletStore.encrypt` lower-cases the
wallet before sealing (`wallet_address.lower().encode('utf-8')`), so a
wallet containing an uppercase letter does not round-trip unchanged:
sealing the one-byte wallet `"A"` (byte 65) and opening it yields
`"a"` (byte 97), not `"A"`. -/
theorem wallet_round_trip_changes_case :
    walletStore_decrypt (List.replicate 32 0) (List.replicate 12 0)
      (walletStore_encrypt (List.replicate 32 0) (List.replicate 12 0) [65]).2 =
      some [97] ∧ ([97] : List Nat) ≠ [65] := by
  constructor
  · rw [walletStore_encrypt, walletStore_decrypt]
    have := aesgcm_round_trip (List.replicate 32 0) (List.replicate 12 0) (pyLower [65])
    simpa [pyLower, lowerByte] using this
  · decide

/-- **C5, amended.**  For every key, nonce and wallet byte string `w`,
opening the sealed wallet returns the *lower-cased* `w`; it equals `w`
exactly when `w` contains no ASCII uppercase letter (wallet addresses
normalised to lowercase hex round-trip unchanged). -/
theorem wallet_round_trip_lowercase :
    (∀ key nonce w : List Nat,
        walletStore_decrypt key nonce (walletStore_encrypt key nonce w).2 =
          some (pyLower w)) ∧
    (∀ w : List Nat, (∀ b ∈ w, ¬(65 ≤ b ∧ b ≤ 90)) → pyLower w = w) := by
  constructor
  · intro key nonce w
    rw [walletStore_encrypt, walletStore_decrypt]
    exact aesgcm_round_trip key nonce (pyLower w)
  · intro w h
    induction w with
    | nil => rfl
    | cons b w ih =>
      have hb : ¬(65 ≤ b ∧ b ≤ 90) := h b (List.mem_cons_self b w)
      have hw := ih fun x hx => h x (List.mem_cons_of_mem b hx)
      simp only [pyLower, List.map_cons] at hw ⊢
      rw [lowerByte, if_neg hb]
      simp [hw]

/-! ## Claim C4 -/

lemma score_loop_le (n : Nat) (s : ℚ) (h : s ≤ 100) : score_loop n s ≤ 100 := by
  induction n generalizing s with
  | zero => simp [score_loop, h]
  | succ n ih =>
    rw [score_loop]
    have hap : apply_one_interaction s ≤ 100 :=
      min_le_right (s + calculate_tiered_points s) MAX_SCORE
    split
    · exact hap
    · exact ih _ hap

lemma round2_le_100 (x : ℚ) (h : x ≤ 100) : round2 x ≤ 100 := by
  unfold round2
  have h1 : round (x * 100) ≤ 10000 := by
    rw [round_eq]
    have hfl : (⌊(10000 : ℚ) + 1 / 2⌋ : ℤ) = 10000 := by
      norm_num [Int.floor_eq_iff]
    calc ⌊x * 100 + 1 / 2⌋ ≤ ⌊(10000 : ℚ) + 1 / 2⌋ := Int.floor_mono (by linarith)
      _ = 10000 := hfl
  have h2 : ((round (x * 100) : ℤ) : ℚ) ≤ 10000 := by exact_mod_cast h1
  linarith

/-- **C4.**  `calculate_new_score` applies the tier increment one
interaction at a time (re-reading `calculate_tiered_points` at the score
reached after each unit), clamps to `MAX_SCORE` (100) and rounds the
result to 2 decimal places: score 61.8 with one interaction gives 62.30
(tier-60 rate +0.5), score 58 gives 59.00 (tier-50 rate +1.0); applying
two interactions from 59.5 crosses the 60 boundary and yields 61.00,
not the bulk `59.5 + 2 * rate(59.5) = 61.5`; and the result never
exceeds 100 for any start score ≤ 100. -/
theorem calculate_new_score_spec :
    calculate_new_score (618/10) 1 = 623/10 ∧
    calculate_new_score 58 1 = 59 ∧
    calculate_new_score (119/2) 2 = 61 ∧
    (119/2 : ℚ) + calculate_tiered_points (119/2) * 2 = 123/2 ∧
    calculate_new_score (119/2) 2 ≠ round2 (123/2) ∧
    (∀ (s : ℚ) (n : Nat), s ≤ 100 → calculate_new_score s n ≤ 100) := by
  refine ⟨?_, ?_, ?_, ?_, ?_, ?_⟩
  · norm_num [calculate_new_score, score_loop, apply_one_interaction,
      calculate_tiered_points, round2, MAX_SCORE, round_eq]
  · norm_num [calculate_new_score, score_loop, apply_one_interaction,
      calculate_tiered_points, round2, MAX_SCORE, round_eq]
  · norm_num [calculate_new_score, score_loop, apply_one_interaction,
      calculate_tiered_points, round2, MAX_SCORE, round_eq]
  · norm_num [calculate_tiered_points]
  · norm_num [calculate_new_score, score_loop, apply_one_interaction,
      calculate_tiered_points, round2, MAX_SCORE, round_eq]
  · intro s n h
    exact round2_le_100 _ (score_loop_le n s h)

/-! ## Claim C7 -/

/-- **C7.**  Whatever `verify_token` accepts has passed every gate: if it
returns a payload, the token split into exactly a payload part and a
signature part, the signature equals the recomputed HMAC hexdigest of
the decoded payload bytes, the payload parsed, and the current time does
not exceed the payload's expiry.  Contrapositively, an HMAC mismatch or
`now > exp` always yields `None`, so an expired or forged token never
resolves to a (non-empty) capability set. -/
theorem verify_requires_signature_and_freshness
    (mac : List Nat → List Nat) (token : List Char) (now : Nat) (p : TokenPayload)
    (h : verify_token mac token now = some p) :
    (∃ payload_b64 signature payload_bytes,
        pySplit '.' token = [payload_b64, signature] ∧
        pyUrlsafeB64Decode payload_b64 = some payload_bytes ∧
        signature = hexChars (mac payload_bytes) ∧
        jsonParse (payload_bytes.map Char.ofNat) = some p) ∧
    now ≤ p.exp := by
  unfold verify_token at h
  split at h
  · rename_i pb sig hsp
    split at h
    · simp at h
    · rename_i bytes hdec
      split at h
      · simp at h
      · rename_i payload hjson
        simp at h
        obtain ⟨hsig, hexp, rfl⟩ := h
        exact ⟨⟨pb, sig, bytes, hsp, hdec, hsig, hjson⟩, hexp⟩
  · simp at h

/-- **C7, witness.**  A concrete token accepted by `verify_token`
satisfies all the gates of the theorem. -/
theorem verify_requires_signature_and_freshness_witness :
    (∃ payload_b64 signature payload_bytes,
        pySplit '.' (create_token macZero [] [] 5) = [payload_b64, signature] ∧
        pyUrlsafeB64Decode payload_b64 = some payload_bytes ∧
        signature = hexChars (macZero payload_bytes) ∧
        jsonParse (payload_bytes.map Char.ofNat) =
          some (⟨[], 5, []⟩ : TokenPayload)) ∧
    0 ≤ (⟨[], 5, []⟩ : TokenPayload).exp :=
  verify_requires_signature_and_freshness macZero (create_token macZero [] [] 5)
    0 ⟨[], 5, []⟩ (by decide)

/-! ## Claim C6 -/

/-- **C6, counterexample.**  A token issued by `create_token` (caps `[]`,
invite link `""`, expiry 5, a fixed MAC) whose base64 payload part is
`"eyJjYXBzIjogW10sICJleHAiOiA1LCAibGluayI6ICIifQ=="`: flipping its byte
at index 45 from `'Q'` to `'R'` changes the token but leaves the decoded
payload bytes unchanged (the flip lands in the unused trailing bits of
the final base64 group, which Python's lenient decoder discards), so
`verify_token` still accepts it and returns the payload — not `None`. -/
theorem payload_byte_flip_still_verifies :
    (create_token macZero [] [] 5).set 45 'R' ≠ create_token macZero [] [] 5 ∧
    45 < (pyB64Encode ((jsonDumps ⟨[], 5, []⟩).map Char.toNat)).length ∧
    verify_token macZero ((create_token macZero [] [] 5).set 45 'R') 0 =
      some ⟨[], 5, []⟩ := by
  refine ⟨by decide, by decide, by decide⟩

lemma set_ne_self_of_ne {l : List Char} {j : Nat} {c' : Char}
    (hj : j < l.length) (hne : c' ≠ l.get ⟨j, hj⟩) : l.set j c' ≠ l := by
  intro he
  apply hne
  have h1 : (l.set j c').get? j = some c' := by
    rw [List.get?_eq_getElem?]
    exact List.getElem?_set_eq_of_lt c' hj
  rw [he, List.get?_eq_get hj] at h1
  exact (Option.some.inj h1).symm

/-- **C6, amended.**  Tamper detection does hold for the signature part:
for every token issued by `create_token` (with an ASCII payload),
changing any single byte of the hex signature part to any other
character makes `verify_token` return `None` — either the flip breaks
the two-part split (flip to `'.'`) or the signature no longer equals the
recomputed HMAC hexdigest.  For the base64 payload part the original
claim fails: a flip confined to the unused trailing bits of the final
base64 group leaves the decoded payload unchanged and the token still
verifies (see the counterexample); payload flips that do change the
decoded bytes are caught up to HMAC collisions. -/
theorem sig_byte_flip_rejected
    (mac : List Nat → List Nat) (caps : List (List Char)) (link : List Char)
    (exp now j : Nat) (c' : Char)
    (hascii : ∀ b ∈ (jsonDumps ⟨caps, exp, link⟩).map Char.toNat, b < 256)
    (hj : j < (hexChars (mac ((jsonDumps ⟨caps, exp, link⟩).map Char.toNat))).length)
    (hne : c' ≠ (hexChars (mac ((jsonDumps ⟨caps, exp, link⟩).map Char.toNat))).get ⟨j, hj⟩) :
    verify_token mac
      ((create_token mac caps link exp).set
        ((pyB64Encode ((jsonDumps ⟨caps, exp, link⟩).map Char.toNat)).length + 1 + j) c')
      now = none := by
  set bytes := (jsonDumps ⟨caps, exp, link⟩).map Char.toNat with hbytes
  set P := pyB64Encode bytes with hP
  set S := hexChars (mac bytes) with hS
  have hPdot : '.' ∉ P := dot_not_mem_encode bytes hascii
  have hSdot : '.' ∉ S := dot_not_mem_hexChars (mac bytes)
  have htok : create_token mac caps link exp = P ++ '.' :: S := rfl
  have hidx : (P ++ '.' :: S).set (P.length + 1 + j) c' = P ++ '.' :: S.set j c' := by
    rw [Nat.add_assoc, List.set_append_right _ _ (Nat.le_add_right _ _),
        Nat.add_sub_cancel_left, Nat.add_comm 1 j]
    simp [List.set]
  rw [htok, hidx]
  by_cases hc : c' = '.'
  · subst hc
    have hg : (S.set j '.').get? j = some '.' := by
      rw [List.get?_eq_getElem?]
      exact List.getElem?_set_eq_of_lt _ hj
    have hmem : '.' ∈ S.set j '.' := List.get?_mem hg
    have hsplit : pySplit '.' (P ++ '.' :: S.set j '.') =
        P :: pySplit '.' (S.set j '.') := pySplit_append_sep '.' P _ hPdot
    have hlen := two_le_length_pySplit '.' _ hmem
    obtain ⟨x, tl, hxy⟩ : ∃ x tl, pySplit '.' (S.set j '.') = x :: tl := by
      cases hq : pySplit '.' (S.set j '.') with
      | nil => exact absurd hq (pySplit_ne_nil _ _)
      | cons x tl => exact ⟨x, tl, rfl⟩
    obtain ⟨y, tl2, hy⟩ : ∃ y tl2, tl = y :: tl2 := by
      cases tl with
      | nil => rw [hxy] at hlen; simp at hlen
      | cons y tl2 => exact ⟨y, tl2, rfl⟩
    unfold verify_token
    rw [hsplit, hxy, hy]
  · have hS'dot : '.' ∉ S.set j c' := by
      intro hm
      rcases List.mem_or_eq_of_mem_set hm with hm | hm
      · exact hSdot hm
      · exact hc hm.symm
    have hsplit : pySplit '.' (P ++ '.' :: S.set j c') = [P, S.set j c'] := by
      rw [pySplit_append_sep '.' P _ hPdot, pySplit_no_sep '.' _ hS'dot]
    have hdec : pyUrlsafeB64Decode P = some bytes := b64_round_trip bytes hascii
    have hSne : S.set j c' ≠ S := set_ne_self_of_ne hj hne
    unfold verify_token
    rw [hsplit]
    simp only [hdec]
    rw [if_neg hSne]

/-- **C6, amended, witness.**  A concrete signature-byte flip (first hex
digit changed to `'f'`) on a concrete token is rejected. -/
theorem sig_byte_flip_rejected_witness :
    verify_token macZero
      ((create_token macZero [] [] 5).set
        ((pyB64Encode ((jsonDumps ⟨[], 5, []⟩).map Char.toNat)).length + 1 + 0) 'f')
      0 = none :=
  sig_byte_flip_rejected macZero [] [] 5 0 0 'f' (by decide) (by decide) (by decide)

end AEraLogin
